import Mathlib

/-!
Verification of the query-builder and row-scanner engines of the
`andrewpillar/database` Go repository, as a shallow embedding in Lean 4.

The query builder (`query/expr.go`, `query/query.go`, the clause file) is
embedded as a mutual inductive AST (`GoVal`, `Expr`, `Clause`, `Query`)
whose rendering functions (`Expr.build`, `Clause.build`,
`Query.buildInitial`, `clauseLoop`) follow the Go source line by line.
Builder options are embedded as an inductive `Opt` with `applyOpt`
mirroring the Go `Option` closures.  The row scanner coercions of
`Scanner.Scan` and the field-table construction of `Scanner.getFields`
follow in a later section.
-/

set_option maxHeartbeats 1000000
set_option maxRecDepth 4000

namespace DB

/-- Decimal digit characters of a natural number, as emitted by Go
`strconv.AppendInt` / `strconv.FormatInt` for non-negative values. -/
def natChars (n : Nat) : List Char := (Nat.repr n).data

/-- `strconv.FormatInt(i, 10)` on a (possibly negative) integer. -/
def intChars (i : Int) : String :=
  if i < 0 then "-" ++ Nat.repr i.natAbs else Nat.repr i.toNat

/- The statement kinds of `query/query.go` (`statement uint`, constants
`iota + 1`). -/

def deleteStmt : Nat := 1
def insertStmt : Nat := 2
def selectStmt : Nat := 3
def updateStmt : Nat := 4
def selectDistinctStmt : Nat := 5
def selectDistinctOnStmt : Nat := 6

/-- Modelled from the spec: the `stringer`-generated `statement.String`
method is not part of the provided sources; it is reconstructed from the
`//go:generate stringer -type statement -linecomment` directive and the
line comments on the constants in `query/query.go` (confirmed by the
expected strings of the query tests). -/
def stmtString : Nat → String
  | 1 => "DELETE"
  | 2 => "INSERT"
  | 3 => "SELECT"
  | 4 => "UPDATE"
  | 5 => "SELECT DISTINCT"
  | 6 => "SELECT DISTINCT ON"
  | _ => ""

/-- The clause kinds of the clause file (`clauseKind uint`, `iota + 1`). -/
inductive ClauseKind where
  | fromK | limitK | offsetK | orderK | unionK
  | valuesK | whereK | returningK | setK | joinK
deriving DecidableEq, Repr

/-- Modelled from the spec: the `stringer`-generated `clauseKind.String`
method is not part of the provided sources; reconstructed from the
`-linecomment` directives on the constants. -/
def kindString : ClauseKind → String
  | .fromK => "FROM"
  | .limitK => "LIMIT"
  | .offsetK => "OFFSET"
  | .orderK => "ORDER BY"
  | .unionK => "UNION"
  | .valuesK => "VALUES"
  | .whereK => "WHERE"
  | .returningK => "RETURNING"
  | .setK => "SET"
  | .joinK => "JOIN"

mutual

/-- A Go `any` value as it occurs in argument slots of the builder:
either a scalar or a boxed `Expr` (nested lists, argument expressions
passed through `List`, and so on). -/
inductive GoVal where
  | vint (n : Int)
  | vstr (s : String)
  | vbool (b : Bool)
  | vexpr (e : Expr)

/-- The expression variants of `query/expr.go`: `exprs`, `listExpr`,
`identExpr`, `argExpr`, `litExpr`, `callExpr`, `andOrExpr`, `opExpr`,
`asClause`, and a full `*Query` used as an `Expr`. -/
inductive Expr where
  | exprsE (es : List Expr)
  | listE (items : List String) (wrap : Bool) (args : List GoVal)
  | ident (s : String)
  | arg (v : GoVal)
  | lit (v : GoVal)
  | call (name : String) (args : List Expr)
  | andOr (conj : String) (conds : List Expr)
  | binop (left : Expr) (op : String) (right : Expr)
  | asE (inn : Expr) (out : String)
  | sub (q : Query)

/-- The clause variants of the clause file. -/
inductive Clause where
  | whereC (conj : String) (e : Expr)
  | fromC (table als : String)
  | limitC (n : Int)
  | offsetC (n : Int)
  | orderC (cols : List String) (dir : String)
  | unionC (q : Query)
  | returningC (cols : List String)
  | setC (col : String) (e : Expr)
  | valuesC (items : List String) (args : List GoVal)
  | joinC (table : String) (e : Expr)

/-- The `Query` struct of `query/query.go`. -/
inductive Query where
  | mk (stmt : Nat) (table : String) (exprs : List Expr)
       (clauses : List Clause) (args : List GoVal)

end

def Query.stmtOf : Query → Nat
  | .mk s _ _ _ _ => s

def Query.tableOf : Query → String
  | .mk _ t _ _ _ => t

def Query.exprsOf : Query → List Expr
  | .mk _ _ es _ _ => es

def Query.clausesOf : Query → List Clause
  | .mk _ _ _ cs _ => cs

/-- `Query.Args`. -/
def Query.argsOf : Query → List GoVal
  | .mk _ _ _ _ a => a

/-- `clause.kind()` of each clause variant. -/
def Clause.kind : Clause → ClauseKind
  | .whereC _ _ => .whereK
  | .fromC _ _ => .fromK
  | .limitC _ => .limitK
  | .offsetC _ => .offsetK
  | .orderC _ _ => .orderK
  | .unionC _ => .unionK
  | .returningC _ => .returningK
  | .setC _ _ => .setK
  | .valuesC _ _ => .valuesK
  | .joinC _ _ => .joinK

/-- `Query.conj`: the conjoining string used before the given clause. -/
def conjOf : Clause → String
  | .whereC conj _ => " " ++ conj ++ " "
  | .unionC _ => " " ++ kindString .unionK ++ " "
  | .setC _ _ => ", "
  | .valuesC _ _ => ", "
  | .orderC _ _ => ", "
  | _ => " "

/-- Rendering of a Go value under `fmt.Sprintf("%v", val)` as used by
`litExpr.Build`.  Scalar cases follow the Go `%v` verb.  Literals are only
ever built from strings and numbers in the repository; the Go reflected
rendering of a boxed expression value is not modelled. -/
def govalShow : GoVal → String
  | .vint n => intChars n
  | .vstr s => s
  | .vbool b => if b then "true" else "false"
  | .vexpr _ => "%!v(EXPR)"

/-- `strings.Join(items, ", ")`. -/
def joinComma : List String → String
  | [] => ""
  | [s] => s
  | s :: rest => s ++ ", " ++ joinComma rest

/-- The apostrophe character used by `asClause.Build`. -/
def aposStr : String := String.singleton (Char.ofNat 39)

/-- The placeholder-renumbering loop of `Query.Build`: each `?` is
replaced, left to right, by `$` followed by the decimal of a counter that
starts at 1 and increases by one per replacement (`strings.Index` /
`strconv.AppendInt` loop of `query/query.go`). -/
def renumAux : List Char → Nat → List Char
  | [], _ => []
  | c :: cs, k =>
    if c = '?' then ('$' :: natChars k) ++ renumAux cs (k + 1)
    else c :: renumAux cs k

mutual

/-- `Expr.Build` of each expression variant of `query/expr.go`. -/
def Expr.build : Expr → String
  | .exprsE es => exprsJoin ", " es
  | .listE items wrap _ =>
    if wrap then "(" ++ joinComma items ++ ")" else joinComma items
  | .ident s => s
  | .arg _ => "?"
  | .lit v => govalShow v
  | .call name args => name ++ "(" ++ exprsJoin ", " args ++ ")"
  | .andOr conj conds => exprsJoin conj conds
  | .binop l op r => opOperand l ++ " " ++ op ++ " " ++ opOperand r
  | .asE inn out => Expr.build inn ++ " AS " ++ aposStr ++ out ++ aposStr
  | .sub q => String.mk (renumAux (Query.buildInitial q).data 1)

/-- `opExpr.Build` renders an operand that is itself a `*Query` as the
sub-query's `buildInitial` text wrapped in parentheses; any other operand
renders with its own `Build`. -/
def opOperand : Expr → String
  | .sub q => "(" ++ Query.buildInitial q ++ ")"
  | e => Expr.build e

/-- `exprs.Build` / `strings.Join` over built expressions with the given
separator (also used by `callExpr.Build` and `andOrExpr.Build`). -/
def exprsJoin (sep : String) : List Expr → String
  | [] => ""
  | [e] => Expr.build e
  | e :: rest => Expr.build e ++ sep ++ exprsJoin sep rest

/-- `clause.Build` of each clause variant. -/
def Clause.build : Clause → String
  | .whereC _ e => Expr.build e
  | .fromC t a => if a = "" then t else t ++ " AS " ++ a
  | .limitC n => intChars n
  | .offsetC n => intChars n
  | .orderC cols dir => joinComma cols ++ " " ++ dir
  | .unionC q => Query.buildInitial q
  | .returningC cols => joinComma cols
  | .setC col e => col ++ " = " ++ Expr.build e
  | .valuesC items _ => "(" ++ joinComma items ++ ")"
  | .joinC t e => t ++ " ON " ++ Expr.build e

/-- The clause walk of `Query.buildInitial`: keyword written on first
occurrence of a kind (never for UNION), `WHERE` opening a parenthesis,
conjoining strings between same-kind neighbours with a `)`…`(` wrap when
the conjunction changes mid-run, a closing parenthesis when leaving a
WHERE run or at the end of the clause list. -/
def clauseLoop : Option Clause → List ClauseKind → List Clause → String
  | _, _, [] => ""
  | prev, seen, cl :: rest =>
    let kind := Clause.kind cl
    let fresh : Bool := !(kind == .unionK) && !(seen.contains kind)
    let kw := if fresh then
        kindString kind ++ " " ++ (if kind == .whereK then "(" else "")
      else ""
    let seen' := if fresh then kind :: seen else seen
    let tail := match rest with
      | [] => if kind == .whereK then ")" else ""
      | next :: _ =>
        let conj := conjOf next
        if Clause.kind next == kind then
          let wrap : Bool := match prev with
            | some p => (Clause.kind p == kind) && !(conj == conjOf cl)
            | none => false
          (if wrap then ")" else "") ++ conj ++ (if wrap then "(" else "")
        else (if kind == .whereK then ")" else "") ++ " "
    kw ++ Clause.build cl ++ tail ++ clauseLoop (some cl) seen' rest

/-- The projection-expression part of `Query.buildInitial`: each
expression is preceded by a space, wrapped in parentheses for INSERT, and
followed by a space except for the first expression of
SELECT DISTINCT ON. -/
def exprsPart (stmt : Nat) : Nat → List Expr → String
  | _, [] => ""
  | i, e :: es =>
    " " ++ (if stmt = insertStmt then "(" else "")
      ++ Expr.build e
      ++ (if stmt = insertStmt then ")" else "")
      ++ (if stmt = selectDistinctOnStmt ∧ i = 0 then "" else " ")
      ++ exprsPart stmt (i + 1) es

/-- `Query.buildInitial`: statement keyword, table reference per statement
kind, projection expressions, then the clause walk; placeholders are the
generic `?` marker. -/
def Query.buildInitial : Query → String
  | .mk stmt table exprs clauses _ =>
    (if stmt > 0 then stmtString stmt else "")
      ++ (if stmt = insertStmt then " INTO " ++ table
          else if stmt = updateStmt then " " ++ table ++ " "
          else if stmt = deleteStmt then " FROM " ++ table ++ " "
          else "")
      ++ exprsPart stmt 0 exprs
      ++ clauseLoop none [] clauses

end

/-- `Query.Build`: the initial text with every `?` replaced by sequential
`$1..$n` positional tokens. -/
def Query.build (q : Query) : String :=
  String.mk (renumAux (Query.buildInitial q).data 1)

mutual

/-- `Expr.Args` of each expression variant: only `argExpr` leaves and the
recorded argument slots of `listExpr` contribute; a `*Query` operand
contributes its accumulated argument list. -/
def Expr.argsFn : Expr → List GoVal
  | .exprsE es => argsList es
  | .listE _ _ args => args
  | .ident _ => []
  | .arg v => [v]
  | .lit _ => []
  | .call _ args => argsList args
  | .andOr _ conds => argsList conds
  | .binop l _ r => Expr.argsFn l ++ Expr.argsFn r
  | .asE _ _ => []
  | .sub q => Query.argsOf q

/-- Concatenated `Args` of a list of expressions (`exprs.Args`,
`callExpr.Args`, `andOrExpr.Args`). -/
def argsList : List Expr → List GoVal
  | [] => []
  | e :: rest => Expr.argsFn e ++ argsList rest

end

/-- Expression constructors of `query/expr.go` (names suffixed with `E`
where the Go name would clash with a Lean builtin). -/
def Ident (s : String) : Expr := .ident s

def Arg (v : GoVal) : Expr := .arg v

def Lit (v : GoVal) : Expr := .lit v

/-- `query.Eq`. -/
def EqE (a b : Expr) : Expr := .binop a "=" b

/-- `query.Is`. -/
def IsE (a b : Expr) : Expr := .binop a "IS" b

/-- `query.In`. -/
def InE (a b : Expr) : Expr := .binop a "IN" b

/-- `query.Like`. -/
def LikeE (a b : Expr) : Expr := .binop a "LIKE" b

/-- `query.Columns`: a bare (unwrapped) list expression of column
names. -/
def Columns (cols : List String) : Expr := .listE cols false []

/-- One step of the loop inside `query.List`: a nested `*listExpr` is
inlined as its built text and kept as an argument, literal and identifier
expressions are inlined verbatim with no argument, and every other value
becomes a `?` item whose value is appended to the argument list. -/
def listStep : List String × List GoVal → GoVal → List String × List GoVal
  | (items, args), v =>
    match v with
    | .vexpr (.listE its w as) =>
        (items ++ [Expr.build (.listE its w as)], args ++ [v])
    | .vexpr (.lit u) => (items ++ [Expr.build (.lit u)], args)
    | .vexpr (.ident s) => (items ++ [Expr.build (.ident s)], args)
    | _ => (items ++ ["?"], args ++ [v])

/-- `query.List`: folds `listStep` over the values and wraps the result in
parentheses. -/
def ListE (vals : List GoVal) : Expr :=
  let p := vals.foldl listStep ([], [])
  .listE p.1 true p.2

/-- Builder options as descriptors; `applyOpt` gives each descriptor the
meaning of the corresponding Go `Option` closure. -/
inductive Opt where
  | whereO (conj : String) (e : Expr)
  | fromO (table : String)
  | fromAsO (table als : String)
  | limitO (n : Int)
  | offsetO (n : Int)
  | orderO (cols : List String) (dir : String)
  | returningO (cols : List String)
  | setO (col : String) (e : Expr)
  | valuesO (vals : List GoVal)
  | joinO (table : String) (e : Expr)

/-- Application of one option to a query, exactly as the Go closures do:
`where` appends a WHERE clause and splices the expression's `Args` onto
the accumulator; `Values` appends a VALUES clause (one `?` item per
value) and splices the values; `Set` does so only when the statement kind
is UPDATE, wrapping the built expression as a literal; every other option
appends its clause without touching the argument accumulator. -/
def applyOpt (q : Query) (o : Opt) : Query :=
  match q, o with
  | .mk stmt table exprs clauses args, .whereO conj e =>
      .mk stmt table exprs (clauses ++ [.whereC conj e]) (args ++ Expr.argsFn e)
  | .mk stmt table exprs clauses args, .fromO t =>
      .mk stmt table exprs (clauses ++ [.fromC t ""]) args
  | .mk stmt table exprs clauses args, .fromAsO t a =>
      .mk stmt table exprs (clauses ++ [.fromC t a]) args
  | .mk stmt table exprs clauses args, .limitO n =>
      .mk stmt table exprs (clauses ++ [.limitC n]) args
  | .mk stmt table exprs clauses args, .offsetO n =>
      .mk stmt table exprs (clauses ++ [.offsetC n]) args
  | .mk stmt table exprs clauses args, .orderO cols dir =>
      .mk stmt table exprs (clauses ++ [.orderC cols dir]) args
  | .mk stmt table exprs clauses args, .returningO cols =>
      .mk stmt table exprs (clauses ++ [.returningC cols]) args
  | .mk stmt table exprs clauses args, .setO col e =>
      if stmt = updateStmt then
        .mk stmt table exprs (clauses ++ [.setC col (.lit (.vstr (Expr.build e)))])
          (args ++ Expr.argsFn e)
      else .mk stmt table exprs clauses args
  | .mk stmt table exprs clauses args, .valuesO vals =>
      .mk stmt table exprs
        (clauses ++ [.valuesC (vals.map fun _ => "?") vals]) (args ++ vals)
  | .mk stmt table exprs clauses args, .joinO t e =>
      .mk stmt table exprs (clauses ++ [.joinC t e]) args

/-- Sequential option application (`for _, opt := range opts`). -/
def applyOpts (q : Query) (opts : List Opt) : Query :=
  opts.foldl applyOpt q

/-- `query.Select`. -/
def selectQ (e : Expr) (opts : List Opt) : Query :=
  applyOpts (.mk selectStmt "" [e] [] []) opts

/-- `query.Insert`. -/
def insertQ (table : String) (e : Expr) (opts : List Opt) : Query :=
  applyOpts (.mk insertStmt table [e] [] []) opts

/-- `query.Update`. -/
def updateQ (table : String) (opts : List Opt) : Query :=
  applyOpts (.mk updateStmt table [] [] []) opts

/-- `query.Delete`. -/
def deleteQ (table : String) (opts : List Opt) : Query :=
  applyOpts (.mk deleteStmt table [] [] []) opts

/-- `query.Union`: a zero-statement container holding one UNION clause
per member query, with the members' accumulated arguments spliced in
member order. -/
def unionQ (qs : List Query) : Query :=
  .mk 0 "" [] (qs.map Clause.unionC) (qs.map Query.argsOf).flatten

/-- `query.Where`. -/
def Where (e : Expr) : Opt := .whereO "AND" e

/-- `query.OrWhere`. -/
def OrWhere (e : Expr) : Opt := .whereO "OR" e

/-- `query.WhereEq`. -/
def WhereEq (col : String) (e : Expr) : Opt := .whereO "AND" (EqE (Ident col) e)

/-- `query.OrWhereEq`. -/
def OrWhereEq (col : String) (e : Expr) : Opt := OrWhere (EqE (Ident col) e)

/-- `query.WhereIs`. -/
def WhereIs (col : String) (e : Expr) : Opt := .whereO "AND" (IsE (Ident col) e)

/-- `query.WhereIsNil`. -/
def WhereIsNil (col : String) : Opt := WhereIs col (Lit (.vstr "NULL"))

/-- `query.WhereIn`. -/
def WhereIn (col : String) (e : Expr) : Opt := .whereO "AND" (InE (Ident col) e)

/-- `query.WhereLike`. -/
def WhereLike (col : String) (e : Expr) : Opt := .whereO "AND" (LikeE (Ident col) e)

/-- `query.From`. -/
def From (table : String) : Opt := .fromO table

/-- `query.Join`. -/
def Join (table : String) (e : Expr) : Opt := .joinO table e

/-- `query.Set`. -/
def Set (col : String) (e : Expr) : Opt := .setO col e

/-- `query.Values`. -/
def Values (vals : List GoVal) : Opt := .valuesO vals

mutual

/-- Specification-side count of Argument leaves reachable from an
expression: one per `argExpr` leaf and one per bound value recorded in a
list expression (a boxed expression value counts its own leaves). -/
def Expr.argLeafCount : Expr → Nat
  | .exprsE es => leafList es
  | .listE _ _ args => leafVals args
  | .ident _ => 0
  | .arg _ => 1
  | .lit _ => 0
  | .call _ args => leafList args
  | .andOr _ conds => leafList conds
  | .binop l _ r => Expr.argLeafCount l + Expr.argLeafCount r
  | .asE inn _ => Expr.argLeafCount inn
  | .sub q => Query.argLeafCount q

def leafVals : List GoVal → Nat
  | [] => 0
  | .vexpr e :: rest => Expr.argLeafCount e + leafVals rest
  | _ :: rest => 1 + leafVals rest

def leafList : List Expr → Nat
  | [] => 0
  | e :: rest => Expr.argLeafCount e + leafList rest

/-- Argument leaves reachable from one appended clause. -/
def Clause.argLeafCount : Clause → Nat
  | .whereC _ e => Expr.argLeafCount e
  | .setC _ e => Expr.argLeafCount e
  | .joinC _ e => Expr.argLeafCount e
  | .valuesC _ args => leafVals args
  | .unionC q => Query.argLeafCount q
  | _ => 0

def leafClauses : List Clause → Nat
  | [] => 0
  | c :: rest => Clause.argLeafCount c + leafClauses rest

/-- Argument leaves reachable from a query's appended expressions and
clauses. -/
def Query.argLeafCount : Query → Nat
  | .mk _ _ es cs _ => leafList es + leafClauses cs

end

/-- The arguments an option splices onto the accumulator when applied to
a query of the given statement kind. -/
def optSplice (stmt : Nat) : Opt → List GoVal
  | .whereO _ e => Expr.argsFn e
  | .setO _ e => if stmt = updateStmt then Expr.argsFn e else []
  | .valuesO vals => vals
  | _ => []

theorem applyOpt_stmtOf (q : Query) (o : Opt) :
    Query.stmtOf (applyOpt q o) = Query.stmtOf q := by
  cases q with
  | mk stmt table exprs clauses args =>
    cases o
    case setO col e =>
      by_cases h : stmt = updateStmt <;> simp [applyOpt, h, Query.stmtOf]
    all_goals rfl

theorem applyOpt_argsOf (q : Query) (o : Opt) :
    Query.argsOf (applyOpt q o) =
      Query.argsOf q ++ optSplice (Query.stmtOf q) o := by
  cases q with
  | mk stmt table exprs clauses args =>
    cases o
    case setO col e =>
      by_cases h : stmt = updateStmt <;>
        simp [applyOpt, h, Query.argsOf, Query.stmtOf, optSplice]
    all_goals simp [applyOpt, Query.argsOf, Query.stmtOf, optSplice]

/- Splitting of the built text at the generic placeholder, and the token
interleaving that `Build`'s renumbering pass produces. -/

/-- The segments of a character list between occurrences of `?`
(`strings.Index`-based splitting, as a pure function). -/
def qparts : List Char → List (List Char)
  | [] => [[]]
  | c :: cs =>
    if c = '?' then [] :: qparts cs
    else
      match qparts cs with
      | [] => [[c]]
      | p :: ps => (c :: p) :: ps

/-- The characters of the `$k` positional token. -/
def tokenChars (k : Nat) : List Char := '$' :: natChars k

/-- Interleaving of text segments with consecutive positional tokens
starting at `k`: the specification-side description of a single
left-to-right renumbering pass. -/
def interTokens : List (List Char) → Nat → List Char
  | [], _ => []
  | [p], _ => p
  | p :: ps, k => p ++ tokenChars k ++ interTokens ps (k + 1)

theorem qparts_ne_nil (cs : List Char) : qparts cs ≠ [] := by
  cases cs with
  | nil => simp [qparts]
  | cons c cs =>
    simp only [qparts]
    split
    · simp
    · split <;> simp_all

theorem digitChar_ne_qmark (n : Nat) : Nat.digitChar n ≠ '?' := by
  rcases Nat.lt_or_ge n 16 with h | h
  · interval_cases n <;> decide
  · have hne : ∀ k, k < 16 → n ≠ k := by omega
    unfold Nat.digitChar
    repeat rw [if_neg (hne _ (by norm_num))]
    decide

theorem toDigitsCore_ne_qmark (f : Nat) :
    ∀ (b n : Nat) (ds : List Char), (∀ c ∈ ds, c ≠ '?') →
      ∀ c ∈ Nat.toDigitsCore b f n ds, c ≠ '?' := by
  induction f with
  | zero => intro b n ds h c hc; exact h c hc
  | succ f ih =>
    intro b n ds h c hc
    unfold Nat.toDigitsCore at hc
    simp only at hc
    split at hc
    · rcases List.mem_cons.mp hc with hc | hc
      · exact hc ▸ digitChar_ne_qmark _
      · exact h c hc
    · refine ih b _ _ ?_ c hc
      intro c' hc'
      rcases List.mem_cons.mp hc' with hc' | hc'
      · exact hc' ▸ digitChar_ne_qmark _
      · exact h c' hc'

theorem natChars_ne_qmark (n : Nat) : ∀ c ∈ natChars n, c ≠ '?' := by
  have h : natChars n = Nat.toDigitsCore 10 (n + 1) n [] := rfl
  rw [h]
  exact toDigitsCore_ne_qmark _ _ _ _ (by simp)

theorem renumAux_ne_qmark (cs : List Char) : ∀ k, '?' ∉ renumAux cs k := by
  induction cs with
  | nil => intro k; simp [renumAux]
  | cons c cs ih =>
    intro k
    by_cases hc : c = '?'
    · simp only [renumAux, hc, if_pos rfl]
      intro hmem
      rcases List.mem_append.mp hmem with hmem | hmem
      · rcases List.mem_cons.mp hmem with hmem | hmem
        · exact absurd hmem.symm (by decide)
        · exact natChars_ne_qmark k _ hmem rfl
      · exact ih (k + 1) hmem
    · simp only [renumAux, if_neg hc]
      intro hmem
      rcases List.mem_cons.mp hmem with hmem | hmem
      · exact hc hmem.symm
      · exact ih k hmem

theorem interTokens_cons (p : List Char) (ps : List (List Char)) (k : Nat)
    (h : ps ≠ []) :
    interTokens (p :: ps) k = p ++ tokenChars k ++ interTokens ps (k + 1) := by
  cases ps with
  | nil => exact absurd rfl h
  | cons x xs => rfl

theorem renumAux_eq_interTokens (cs : List Char) :
    ∀ k, renumAux cs k = interTokens (qparts cs) k := by
  induction cs with
  | nil => intro k; rfl
  | cons c cs ih =>
    intro k
    by_cases hc : c = '?'
    · rw [show qparts (c :: cs) = [] :: qparts cs by simp [qparts, hc]]
      rw [interTokens_cons _ _ _ (qparts_ne_nil cs)]
      simp only [renumAux, hc, if_pos rfl, List.nil_append]
      rw [ih]
      rfl
    · simp only [renumAux, if_neg hc]
      rw [ih k]
      rcases hps : qparts cs with _ | ⟨p, ps⟩
      · exact absurd hps (qparts_ne_nil cs)
      · have hq : qparts (c :: cs) = (c :: p) :: ps := by
          simp [qparts, hc, hps]
        rw [hq]
        cases ps with
        | nil => rfl
        | cons x xs => simp [interTokens, List.append_assoc]

/-!  Claim C1.  -/

/-- The query used to refute claim C1 as stated: a `Join` whose ON
condition carries one `Arg` leaf. -/
def c1q : Query :=
  selectQ (Columns ["*"]) [Join "t" (EqE (Ident "a") (Arg (.vint 5)))]

/-- C1 is false as stated: `Join` appends its clause without splicing the
condition's bound arguments, so a query with one Argument leaf reachable
from its appended clauses has an empty `Args()` list. -/
theorem join_arg_not_accumulated :
    (Query.argsOf c1q).length = 0 ∧ Query.argLeafCount c1q = 1 := by
  constructor
  · rfl
  · simp [c1q, selectQ, applyOpts, applyOpt, Join, EqE, Ident, Arg, Columns,
      Query.argLeafCount, leafList, leafClauses, Clause.argLeafCount,
      Expr.argLeafCount, leafVals]

/-- C1 (amended): for every query and option sequence, `Args()` is the
concatenation, in option-application order, of the argument lists each
option splices when applied: a where-family option splices its
expression's `Args`, `Values` splices its values, `Set` splices its
expression's `Args` only on an UPDATE statement, and every other option
(including `Join` and the projection expressions) splices nothing. -/
theorem args_eq_option_splices (q : Query) (opts : List Opt) :
    Query.argsOf (applyOpts q opts) =
      Query.argsOf q ++ (opts.map (optSplice (Query.stmtOf q))).flatten := by
  induction opts generalizing q with
  | nil => simp [applyOpts]
  | cons o opts ih =>
    have h1 : applyOpts q (o :: opts) = applyOpts (applyOpt q o) opts := rfl
    rw [h1, ih, applyOpt_argsOf, applyOpt_stmtOf, List.map_cons,
        List.flatten_cons, List.append_assoc]

/-!  Claim C2.  -/

/-- C2: for every query, `Build()` leaves no unresolved `?` placeholder,
and its output is exactly the `?`-separated segments of the initial text
interleaved with the consecutive positional tokens `$1, $2, …` in a
single left-to-right pass. -/
theorem build_no_placeholder_consecutive_tokens (q : Query) :
    '?' ∉ (Query.build q).data ∧
      (Query.build q).data =
        interTokens (qparts (Query.buildInitial q).data) 1 :=
  ⟨renumAux_ne_qmark _ 1, renumAux_eq_interTokens _ 1⟩

/-!  Claim C10.  -/

/-- A query whose first WHERE clause compares a column against the
literal text `?`: the literal renders verbatim into the initial text. -/
def c10q : Query :=
  selectQ (Columns ["*"])
    [From "t", Where (EqE (Ident "c") (Lit (.vstr "?"))),
     WhereEq "d" (Arg (.vint 5))]

/-- C10: the renumbering pass of `Build()` replaces every `?` character
of the initial text, not only placeholders of Argument leaves: the `?`
rendered by `Lit("?")` consumes the token `$1` and shifts the true
argument placeholder to `$2`, even though `Args()` has a single element;
in general the pass is the pure text interleaving of `interTokens`. -/
theorem lit_qmark_consumes_token :
    Query.build c10q = "SELECT * FROM t WHERE (c = $1 AND d = $2)" ∧
      (Query.argsOf c10q).length = 1 ∧
      (∀ cs k, renumAux cs k = interTokens (qparts cs) k) := by
  refine ⟨?_, ?_, fun cs k => renumAux_eq_interTokens cs k⟩
  · simp [c10q, selectQ, applyOpts, applyOpt, From, Where, WhereEq, EqE,
      Ident, Arg, Lit, Columns, Query.build, Query.buildInitial, clauseLoop,
      exprsPart, Clause.build, Expr.build, opOperand, exprsJoin, conjOf,
      Clause.kind, govalShow, joinComma, kindString, stmtString, Expr.argsFn,
      selectStmt, insertStmt, updateStmt, deleteStmt, selectDistinctStmt,
      selectDistinctOnStmt]
    decide
  · simp [c10q, selectQ, applyOpts, applyOpt, From, Where, WhereEq, EqE,
      Ident, Arg, Lit, Columns, Query.argsOf, Expr.argsFn, selectStmt,
      updateStmt]

/-!  Claim C3.  -/

/-- The conjoining token of a WHERE clause with recorded conjunction
`c`. -/
def tokOf (c : String) : String := " " ++ c ++ " "

/-- Specification-side rendering of the clauses of a WHERE run after its
first boundary: each clause is preceded by its token, and when the token
differs from the previous boundary token a nested sub-group closes and
reopens at the point of change. -/
def specChanges (prevConj : String) : List (String × Expr) → String
  | [] => ""
  | (c, e) :: rest =>
    (if c = prevConj then tokOf c else ")" ++ tokOf c ++ "(")
      ++ Expr.build e ++ specChanges c rest

/-- Rendering after the first clause of a run: the first boundary has no
preceding token and never opens a sub-group. -/
def specFirst : List (String × Expr) → String
  | [] => ""
  | (c, e) :: rest => tokOf c ++ Expr.build e ++ specChanges c rest

/-- Specification-side rendering of a maximal WHERE run: one outer
parenthesis pair around the clauses, with nested sub-groups at the
conjunction changes. -/
def specWhereRun : List (String × Expr) → String
  | [] => ""
  | (_, e) :: rest => "(" ++ Expr.build e ++ specFirst rest ++ ")"

/-- A `(conjunction, expression)` pair as a WHERE clause. -/
def toWhere (p : String × Expr) : Clause := .whereC p.1 p.2

/-- Code-shaped rendering of the rest of a WHERE run (current clause
onwards), as `clauseLoop` emits it when the previous clause is also a
WHERE clause. -/
def whereRunRest : List (String × Expr) → String
  | [] => ""
  | [(_, e)] => Expr.build e ++ ")"
  | (c, e) :: (c2, e2) :: rest =>
    Expr.build e
      ++ (if tokOf c2 = tokOf c then tokOf c2 else ")" ++ tokOf c2 ++ "(")
      ++ whereRunRest ((c2, e2) :: rest)

theorem tokOf_eq_iff (a b : String) : tokOf a = tokOf b ↔ a = b := by
  constructor
  · intro h
    have hd := congrArg String.data h
    simp only [tokOf, String.data_append] at hd
    have hd2 := List.append_cancel_right hd
    have hd3 := List.append_cancel_left hd2
    exact String.ext hd3
  · intro h; rw [h]

theorem clauseLoop_whereRun (run : List (String × Expr)) :
    ∀ (pc : String) (pe : Expr) (seen : List ClauseKind),
      seen.contains .whereK = true →
      clauseLoop (some (.whereC pc pe)) seen (run.map toWhere) =
        whereRunRest run := by
  induction run with
  | nil =>
    intro pc pe seen _
    simp [clauseLoop, whereRunRest]
  | cons p rest ih =>
    rcases p with ⟨c, e⟩
    intro pc pe seen hseen
    have hmem : ClauseKind.whereK ∈ seen := by
      simpa using hseen
    cases rest with
    | nil =>
      simp [clauseLoop, toWhere, Clause.kind, hmem, whereRunRest, Clause.build]
    | cons p2 rest2 =>
      rcases p2 with ⟨c2, e2⟩
      have ih2 := ih c e seen hseen
      simp only [List.map_cons, toWhere] at ih2 ⊢
      rw [clauseLoop]
      have hfresh : (!(ClauseKind.whereK == ClauseKind.unionK)
          && !(seen.contains ClauseKind.whereK)) = false := by
        rw [hseen]; rfl
      have hsame : (ClauseKind.whereK == ClauseKind.whereK) = true := rfl
      simp only [Clause.kind, hfresh, hsame, Bool.false_eq_true, Bool.true_and,
        if_false, if_true, Clause.build, conjOf]
      rw [ih2]
      by_cases hconj : tokOf c2 = tokOf c
      · simp only [tokOf, String.append_assoc] at hconj
        simp [whereRunRest, tokOf, hconj, String.append_assoc]
      · simp only [tokOf, String.append_assoc] at hconj
        simp [whereRunRest, tokOf, hconj, String.append_assoc]

theorem whereRunRest_eq_spec (rest : List (String × Expr)) :
    ∀ c e, whereRunRest ((c, e) :: rest) =
      Expr.build e ++ specChanges c rest ++ ")" := by
  induction rest with
  | nil => intro c e; simp [whereRunRest, specChanges]
  | cons p rest ih =>
    rcases p with ⟨c2, e2⟩
    intro c e
    rw [whereRunRest, ih c2 e2]
    by_cases hconj : c2 = c
    · rw [if_pos ((tokOf_eq_iff c2 c).mpr hconj)]
      simp [specChanges, hconj, String.append_assoc]
    · rw [if_neg (fun h => hconj ((tokOf_eq_iff c2 c).mp h))]
      simp [specChanges, hconj, String.append_assoc]

theorem clauseLoop_whereRun_full (run : List (String × Expr)) (h : run ≠ []) :
    clauseLoop none [] (run.map toWhere) = "WHERE " ++ specWhereRun run := by
  cases run with
  | nil => exact absurd rfl h
  | cons p rest =>
    rcases p with ⟨c0, e0⟩
    cases rest with
    | nil =>
      simp [clauseLoop, toWhere, Clause.kind, Clause.build, specWhereRun,
        specFirst, kindString, String.append_assoc]
      apply String.ext
      simp [String.data_append]
    | cons p1 rest1 =>
      rcases p1 with ⟨c1, e1⟩
      have ih2 := clauseLoop_whereRun ((c1, e1) :: rest1) c0 e0
        [ClauseKind.whereK] rfl
      simp only [List.map_cons, toWhere] at ih2 ⊢
      rw [clauseLoop]
      simp only [Clause.kind, Clause.build, conjOf]
      rw [show (!(ClauseKind.whereK == ClauseKind.unionK)
          && !(List.contains ([] : List ClauseKind) ClauseKind.whereK)) = true
        from rfl]
      simp only [if_true]
      rw [ih2, whereRunRest_eq_spec]
      simp [specWhereRun, specFirst, kindString, tokOf, String.append_assoc]
      apply String.ext
      simp [String.data_append]

/-- The five-option query of the C3 example. -/
def c3q : Query :=
  selectQ (Columns ["*"])
    [From "users", WhereEq "email" (Arg (.vstr "e")),
     OrWhereEq "username" (Arg (.vstr "u")), WhereIsNil "deleted_at"]

/-- C3: the example query builds to exactly the expected text with two
arguments; and in general a run of WHERE clauses is wrapped in one outer
parenthesis pair with a nested sub-group opening exactly where the
conjoining token changes between adjacent boundaries (the first boundary
of the run has no preceding token and opens no sub-group), closing at the
next change or at the end of the run. -/
theorem where_grouping_and_example :
    (Query.build c3q =
        "SELECT * FROM users WHERE (email = $1 OR username = $2) AND (deleted_at IS NULL)" ∧
      (Query.argsOf c3q).length = 2) ∧
    (∀ run : List (String × Expr), run ≠ [] →
      clauseLoop none [] (run.map toWhere) = "WHERE " ++ specWhereRun run) := by
  refine ⟨⟨?_, ?_⟩, fun run h => clauseLoop_whereRun_full run h⟩
  · simp [c3q, selectQ, applyOpts, applyOpt, From, WhereEq, OrWhereEq, OrWhere,
      WhereIsNil, WhereIs, EqE, IsE, Ident, Arg, Lit, Columns, Query.build,
      Query.buildInitial, clauseLoop, exprsPart, Clause.build, Expr.build,
      opOperand, exprsJoin, conjOf, Clause.kind, govalShow, joinComma,
      kindString, stmtString, Expr.argsFn, selectStmt, insertStmt, updateStmt,
      deleteStmt, selectDistinctStmt, selectDistinctOnStmt]
    decide
  · simp [c3q, selectQ, applyOpts, applyOpt, From, WhereEq, OrWhereEq, OrWhere,
      WhereIsNil, WhereIs, EqE, IsE, Ident, Arg, Lit, Columns, Query.argsOf,
      Expr.argsFn, selectStmt, updateStmt]

/-- Witness for the general part of C3 at the concrete mixed-conjunction
run `AND a, OR b, AND cc`. -/
theorem where_grouping_and_example_witness :
    clauseLoop none []
        ([("AND", Ident "a"), ("OR", Ident "b"),
          ("AND", Ident "cc")].map toWhere) =
      "WHERE " ++ specWhereRun
        [("AND", Ident "a"), ("OR", Ident "b"), ("AND", Ident "cc")] :=
  where_grouping_and_example.2 _ (by simp)

/-!  Claim C4.  -/

/-- `pat` occurs at the head of `s`. -/
def segAt : List Char → List Char → Bool
  | [], _ => true
  | _ :: _, [] => false
  | p :: ps, c :: cs => p == c && segAt ps cs

/-- `pat` occurs as a contiguous segment somewhere in `s`. -/
def containsSeg : List Char → List Char → Bool
  | pat, [] => pat.isEmpty
  | pat, c :: cs => segAt pat (c :: cs) || containsSeg pat cs

theorem segAt_iff (pat : List Char) :
    ∀ s, segAt pat s = true ↔ ∃ r, s = pat ++ r := by
  induction pat with
  | nil => intro s; simp [segAt]
  | cons p ps ih =>
    intro s
    cases s with
    | nil => simp [segAt]
    | cons c cs =>
      simp only [segAt, Bool.and_eq_true, beq_iff_eq, ih, List.cons_append,
        List.cons.injEq]
      constructor
      · rintro ⟨hpc, r, hr⟩; exact ⟨r, hpc.symm, hr⟩
      · rintro ⟨r, hpc, hr⟩; exact ⟨hpc.symm, r, hr⟩

theorem containsSeg_iff (pat : List Char) :
    ∀ s, containsSeg pat s = true ↔ ∃ l r, s = l ++ pat ++ r := by
  intro s
  induction s with
  | nil =>
    simp only [containsSeg, List.isEmpty_iff]
    constructor
    · intro h; exact ⟨[], [], by simp [h]⟩
    · rintro ⟨l, r, hlr⟩
      exact (List.append_eq_nil.mp (List.append_eq_nil.mp hlr.symm).1).2
  | cons c cs ih =>
    simp only [containsSeg, Bool.or_eq_true, segAt_iff, ih]
    constructor
    · rintro (⟨r, hr⟩ | ⟨l, r, hlr⟩)
      · exact ⟨[], r, by simp [hr]⟩
      · exact ⟨c :: l, r, by simp [hlr]⟩
    · rintro ⟨l, r, hlr⟩
      cases l with
      | nil => exact Or.inl ⟨r, by simpa using hlr⟩
      | cons x xs =>
        rcases List.cons.injEq .. ▸ hlr with ⟨_, h2⟩
        exact Or.inr ⟨xs, r, by simpa using h2⟩

/-- `strings.Join` with an arbitrary separator. -/
def joinSep (sep : String) : List String → String
  | [] => ""
  | [s] => s
  | s :: rest => s ++ sep ++ joinSep sep rest

theorem clauseLoop_unionRun (qs : List Query) :
    ∀ (prev : Option Clause) (seen : List ClauseKind),
      clauseLoop prev seen (qs.map Clause.unionC) =
        joinSep " UNION " (qs.map Query.buildInitial) := by
  induction qs with
  | nil => intro prev seen; simp [clauseLoop, joinSep]
  | cons q qs ih =>
    intro prev seen
    cases qs with
    | nil =>
      cases prev with
      | none => simp [clauseLoop, Clause.kind, Clause.build, joinSep]
      | some p => simp [clauseLoop, Clause.kind, Clause.build, joinSep]
    | cons q2 qs2 =>
      have ih2 := ih (some (Clause.unionC q)) seen
      simp only [List.map_cons] at ih2 ⊢
      rw [clauseLoop]
      have hfresh : (!(ClauseKind.unionK == ClauseKind.unionK)
          && !(seen.contains ClauseKind.unionK)) = false := by simp
      simp only [Clause.kind, Clause.build, conjOf, hfresh, Bool.false_eq_true,
        if_false]
      rw [ih2]
      cases prev with
      | none => simp [joinSep, kindString, String.append_assoc]
      | some p => simp [joinSep, kindString, String.append_assoc]

/-- The member queries and union of the C4 counterexample. -/
def c4m1 : Query := selectQ (Columns ["a"]) [From "t", WhereEq "c" (Arg (.vint 1))]

def c4m2 : Query := selectQ (Columns ["b"]) [From "s", WhereEq "d" (Arg (.vint 2))]

def c4u : Query := unionQ [c4m1, c4m2]

theorem c4m1_initial :
    Query.buildInitial c4m1 = "SELECT a FROM t WHERE (c = ?)" := by
  simp [c4m1, selectQ, applyOpts, applyOpt, From, WhereEq, EqE, Ident, Arg,
    Columns, Query.buildInitial, clauseLoop, exprsPart, Clause.build,
    Expr.build, opOperand, exprsJoin, conjOf, Clause.kind, govalShow,
    joinComma, kindString, stmtString, Expr.argsFn, selectStmt, insertStmt,
    updateStmt, deleteStmt, selectDistinctStmt, selectDistinctOnStmt]

theorem c4u_initial :
    Query.buildInitial c4u =
      "SELECT a FROM t WHERE (c = ?) UNION SELECT b FROM s WHERE (d = ?)" := by
  simp [c4u, c4m1, c4m2, unionQ, selectQ, applyOpts, applyOpt, From, WhereEq,
    EqE, Ident, Arg, Columns, Query.buildInitial, clauseLoop, exprsPart,
    Clause.build, Expr.build, opOperand, exprsJoin, conjOf, Clause.kind,
    govalShow, joinComma, kindString, stmtString, Expr.argsFn, Query.argsOf,
    selectStmt, insertStmt, updateStmt, deleteStmt, selectDistinctStmt,
    selectDistinctOnStmt]

/-- C4 is false as stated for Union members: the union of two queries
renders each member's initial text bare, joined by the UNION keyword; the
parenthesized member text occurs nowhere in the rendering, while the bare
member text does occur. -/
theorem union_member_not_parenthesized :
    Query.buildInitial c4u =
      "SELECT a FROM t WHERE (c = ?) UNION SELECT b FROM s WHERE (d = ?)" ∧
    (¬ ∃ l r, (Query.buildInitial c4u).data =
        l ++ ("(" ++ Query.buildInitial c4m1 ++ ")").data ++ r) ∧
    (∃ l r, (Query.buildInitial c4u).data =
        l ++ (Query.buildInitial c4m1).data ++ r) := by
  refine ⟨c4u_initial, ?_, ?_⟩
  · rw [c4u_initial, c4m1_initial]
    intro hex
    have hc := (containsSeg_iff _ _).mpr hex
    exact absurd hc (by decide)
  · rw [c4u_initial, c4m1_initial]
    exact (containsSeg_iff _ _).mp (by decide)

/-- The nested-subquery query of the test suite, used to exhibit global
renumbering. -/
def c4sub : Query :=
  selectQ (Columns ["*"])
    [From "posts", WhereEq "user_id" (Arg (.vint 1)),
     WhereIn "id" (.sub (selectQ (Columns ["post_id"])
       [From "post_tags", WhereLike "name" (Arg (.vstr "%foo%"))]))]

/-- C4 (amended): a comparison operand that is a full `Query` renders as
the sub-query's unrenumbered `buildInitial` text wrapped in parentheses;
a member query of a Union renders as its unrenumbered text joined bare by
the UNION keyword with no parentheses added; renumbering happens exactly
once, at the top-level `Build()`, numbering the sub-query's placeholders
within the global sequence. -/
theorem subquery_render_amended :
    (∀ (q : Query) (o : String) (r : Expr),
        Expr.build (.binop (.sub q) o r) =
          "(" ++ Query.buildInitial q ++ ")" ++ " " ++ o ++ " " ++ opOperand r) ∧
    (∀ (l : Expr) (o : String) (q : Query),
        Expr.build (.binop l o (.sub q)) =
          opOperand l ++ " " ++ o ++ " " ++ ("(" ++ Query.buildInitial q ++ ")")) ∧
    (∀ qs : List Query,
        Query.buildInitial (unionQ qs) =
          joinSep " UNION " (qs.map Query.buildInitial)) ∧
    (Query.build c4sub =
        "SELECT * FROM posts WHERE (user_id = $1 AND id IN (SELECT post_id FROM post_tags WHERE (name LIKE $2)))" ∧
      (Query.argsOf c4sub).length = 2) := by
  refine ⟨?_, ?_, ?_, ?_, ?_⟩
  · intro q o r
    simp [Expr.build, opOperand]
  · intro l o q
    simp [Expr.build, opOperand]
  · intro qs
    simp only [Query.buildInitial, unionQ, exprsPart]
    rw [clauseLoop_unionRun qs none []]
    simp [insertStmt, updateStmt, deleteStmt]
  · simp [c4sub, selectQ, applyOpts, applyOpt, From, WhereEq, WhereIn,
      WhereLike, EqE, InE, LikeE, Ident, Arg, Columns, Query.build,
      Query.buildInitial, clauseLoop, exprsPart, Clause.build, Expr.build,
      opOperand, exprsJoin, conjOf, Clause.kind, govalShow, joinComma,
      kindString, stmtString, Expr.argsFn, Query.argsOf, selectStmt,
      insertStmt, updateStmt, deleteStmt, selectDistinctStmt,
      selectDistinctOnStmt]
    decide
  · simp [c4sub, selectQ, applyOpts, applyOpt, From, WhereEq, WhereIn,
      WhereLike, EqE, InE, LikeE, Ident, Arg, Columns, Query.argsOf,
      Expr.argsFn, selectStmt, updateStmt]

/-!  Claim C8.  -/

/-- C8: applying `Set` to a query whose statement kind is not UPDATE
returns the query entirely unchanged — no clause appended, no argument
accumulated, and the builder has no error channel; on an UPDATE statement
it appends exactly one SET clause (whose expression is the built text
re-wrapped as a literal) and splices the expression's arguments. -/
theorem set_noop_unless_update (q : Query) (col : String) (e : Expr) :
    (Query.stmtOf q ≠ updateStmt → applyOpt q (Set col e) = q) ∧
    (Query.stmtOf q = updateStmt →
      applyOpt q (Set col e) =
        Query.mk (Query.stmtOf q) (Query.tableOf q) (Query.exprsOf q)
          (Query.clausesOf q ++ [.setC col (.lit (.vstr (Expr.build e)))])
          (Query.argsOf q ++ Expr.argsFn e)) := by
  cases q with
  | mk stmt table exprs clauses args =>
    constructor
    · intro h
      simp only [Query.stmtOf] at h
      simp [applyOpt, Set, h]
    · intro h
      simp only [Query.stmtOf] at h
      simp [applyOpt, Set, h, Query.stmtOf, Query.tableOf, Query.exprsOf,
        Query.clausesOf, Query.argsOf]

/-- Witness for C8 on a SELECT query (unchanged) and an UPDATE query
(SET clause appended, argument spliced). -/
theorem set_noop_unless_update_witness :
    applyOpt (Query.mk selectStmt "" [] [] []) (Set "c" (Arg (.vint 1))) =
        Query.mk selectStmt "" [] [] [] ∧
    applyOpt (Query.mk updateStmt "t" [] [] []) (Set "c" (Arg (.vint 1))) =
        Query.mk updateStmt "t" []
          ([] ++ [.setC "c" (.lit (.vstr (Expr.build (Arg (.vint 1)))))])
          ([] ++ Expr.argsFn (Arg (.vint 1))) :=
  ⟨(set_noop_unless_update (Query.mk selectStmt "" [] [] []) "c"
      (Arg (.vint 1))).1 (by decide),
   (set_noop_unless_update (Query.mk updateStmt "t" [] [] []) "c"
      (Arg (.vint 1))).2 rfl⟩

/-!  Row scanner: raw driver values and the coercion switch of
`Scanner.Scan`.  -/

/-- A raw per-column value handed back by the row source
(`database/sql` driver values).  Byte sequences carry their decoded
text.  Binary floating-point driver values are not modelled (the claims
do not involve them). -/
inductive RawVal where
  | rnull
  | rbool (b : Bool)
  | rint (n : Int)
  | rstr (s : String)
  | rbytes (s : String)
deriving DecidableEq

/-- `Scanner.toString`: strings and byte slices pass through, integers
format in decimal, booleans as `true`/`false`; the nil case is
unreachable because `Scan` skips null values before coercing. -/
def toStringGo : RawVal → String
  | .rstr s => s
  | .rbytes s => s
  | .rint n => intChars n
  | .rbool b => if b then "true" else "false"
  | .rnull => "<nil>"

/-- The numeric value of a decimal digit character, if it is one. -/
def digitVal (c : Char) : Option Nat :=
  if 48 ≤ c.toNat ∧ c.toNat ≤ 57 then some (c.toNat - 48) else none

/-- The digit-accumulation loop shared by `strconv.ParseUint` and
`strconv.ParseInt` for base 10: any non-digit character fails. -/
def parseDigits : List Char → Nat → Option Nat
  | [], acc => some acc
  | c :: cs, acc =>
    match digitVal c with
    | some d => parseDigits cs (10 * acc + d)
    | none => none

/-- `strconv.ParseUint(s, 10, bits)`: no sign allowed, text must be a
nonempty digit string, and the value must fit in `bits` bits; otherwise
an error (syntax or range). -/
def parseUint (s : String) (bits : Nat) : Option Nat :=
  if s.data = [] then none
  else
    match parseDigits s.data 0 with
    | some n => if n < 2 ^ bits then some n else none
    | none => none

/-- `strconv.ParseInt(s, 10, bits)`: optional leading sign, then the
digits as in `ParseUint`, bounded to the signed range of `bits` bits. -/
def parseInt (s : String) (bits : Nat) : Option Int :=
  match s.data with
  | [] => none
  | c :: rest =>
    match (if c = '-' ∨ c = '+' then rest else c :: rest) with
    | [] => none
    | d :: ds =>
      match parseDigits (d :: ds) 0 with
      | none => none
      | some n =>
        if c = '-' then
          if n ≤ 2 ^ (bits - 1) then some (-(n : Int)) else none
        else if n < 2 ^ (bits - 1) then some (n : Int) else none

/-- `strconv.ParseBool`: the twelve accepted spellings, everything else
fails. -/
def parseBool (s : String) : Option Bool :=
  if s = "1" ∨ s = "t" ∨ s = "T" ∨ s = "true" ∨ s = "TRUE" ∨ s = "True" then
    some true
  else if s = "0" ∨ s = "f" ∨ s = "F" ∨ s = "false" ∨ s = "FALSE" ∨
      s = "False" then
    some false
  else none

/-- The declared kind of a target struct field (the kinds the claims
exercise). -/
inductive FieldKind where
  | kbool
  | kint (bits : Nat)
  | kuint (bits : Nat)
  | kstr
deriving DecidableEq

/-- The effect of scanning one column into a field. -/
inductive ScanOut where
  | skipped
  | setBool (b : Bool)
  | setInt (n : Int)
  | setUint (n : Nat)
  | setStr (s : String)
deriving DecidableEq

/-- The scanner's coercion errors: a numeric or boolean parse failure
(carrying the offending text), or a kind mismatch
(`ColumnScanError`). -/
inductive ScanErr where
  | parseFailure (s : String)
  | kindMismatch
deriving DecidableEq

/-- The per-column coercion switch of `Scanner.Scan`: a null source is
skipped before any coercion; a bool field accepts a bool value, an int64
value (true exactly when it equals one), or text parseable as bool;
int/uint fields parse the value's text bounded to the field's declared
bit width; any other kind requires an exact kind match. -/
def scanField (k : FieldKind) (src : RawVal) : Except ScanErr ScanOut :=
  match src with
  | .rnull => .ok .skipped
  | _ =>
    match k with
    | .kbool =>
      match src with
      | .rbool b => .ok (.setBool b)
      | .rint n => .ok (.setBool (n == 1))
      | _ =>
        match parseBool (toStringGo src) with
        | some b => .ok (.setBool b)
        | none => .error (.parseFailure (toStringGo src))
    | .kint bits =>
      match parseInt (toStringGo src) bits with
      | some n => .ok (.setInt n)
      | none => .error (.parseFailure (toStringGo src))
    | .kuint bits =>
      match parseUint (toStringGo src) bits with
      | some n => .ok (.setUint n)
      | none => .error (.parseFailure (toStringGo src))
    | .kstr =>
      match src with
      | .rstr s => .ok (.setStr s)
      | _ => .error .kindMismatch

/-- Specification-side decimal reading of a string: defined when the
string is a nonempty run of digit characters. -/
def decimalValue (s : String) : Option Nat :=
  if s.data ≠ [] ∧ s.data.all (fun c => (digitVal c).isSome) then
    some (s.data.foldl (fun a c => 10 * a + (c.toNat - 48)) 0)
  else none

theorem parseDigits_eq (cs : List Char) : ∀ acc,
    parseDigits cs acc =
      if cs.all (fun c => (digitVal c).isSome) then
        some (cs.foldl (fun a c => 10 * a + (c.toNat - 48)) acc)
      else none := by
  induction cs with
  | nil => intro acc; simp [parseDigits]
  | cons c cs ih =>
    intro acc
    simp only [parseDigits, List.all_cons, List.foldl_cons]
    cases hd : digitVal c with
    | none => simp [hd]
    | some d =>
      have hd2 : d = c.toNat - 48 := by
        unfold digitVal at hd
        split at hd
        · exact (Option.some.injEq .. ▸ hd).symm
        · exact absurd hd (by simp)
      subst hd2
      simp [hd, ih]

theorem parseUint_eq (s : String) (bits : Nat) :
    parseUint s bits =
      (decimalValue s).bind
        (fun n => if n < 2 ^ bits then some n else none) := by
  unfold parseUint decimalValue
  by_cases he : s.data = []
  · simp [he]
  · rw [if_neg he, parseDigits_eq]
    by_cases hall : s.data.all (fun c => (digitVal c).isSome)
    · simp [he, hall]
    · simp [he, hall]

theorem parseInt_range (s : String) (bits : Nat) (n : Int)
    (h : parseInt s bits = some n) :
    -(2 ^ (bits - 1) : Int) ≤ n ∧ n < 2 ^ (bits - 1) := by
  unfold parseInt at h
  split at h
  · simp at h
  · split at h
    · simp at h
    · split at h
      · simp at h
      · rename_i n0 _
        split at h
        · split at h
          · rename_i hle
            simp only [Option.some.injEq] at h
            subst h
            have hle2 : (n0 : Int) ≤ (2 : Int) ^ (bits - 1) := by
              exact_mod_cast hle
            have h0 : (0 : Int) ≤ (n0 : Int) := Int.natCast_nonneg n0
            have hp : (0 : Int) < 2 ^ (bits - 1) := pow_pos (by norm_num) _
            constructor
            · linarith
            · linarith
          · simp at h
        · split at h
          · rename_i hlt
            simp only [Option.some.injEq] at h
            subst h
            have hlt2 : (n0 : Int) < (2 : Int) ^ (bits - 1) := by
              exact_mod_cast hlt
            have h0 : (0 : Int) ≤ (n0 : Int) := Int.natCast_nonneg n0
            have hp : (0 : Int) < 2 ^ (bits - 1) := pow_pos (by norm_num) _
            constructor
            · linarith
            · exact hlt2
          · simp at h

theorem scanField_kuint (bits : Nat) (src : RawVal) (h : src ≠ .rnull) :
    scanField (.kuint bits) src =
      match parseUint (toStringGo src) bits with
      | some n => .ok (.setUint n)
      | none => .error (.parseFailure (toStringGo src)) := by
  cases src
  · exact absurd rfl h
  all_goals rfl

/-!  Claim C5.  -/

/-- C5: integer coercion parses the raw value's text bounded to the
field's declared bit width.  For an unsigned 8-bit field the text `300`
fails with a range error and the text `12` stores exactly 12; in general
a uint field scan succeeds exactly when the text is a nonempty digit run
whose value fits in the declared width, the stored value is that decimal
value, and a signed field's stored value always lies within the signed
range of its width. -/
theorem uint_scan_bounded :
    (∃ e, scanField (.kuint 8) (.rstr "300") = .error e) ∧
    scanField (.kuint 8) (.rstr "12") = .ok (.setUint 12) ∧
    (∀ (bits : Nat) (src : RawVal),
      (∃ n, scanField (.kuint bits) src = .ok (.setUint n)) ↔
        (src ≠ .rnull ∧
          ∃ n, decimalValue (toStringGo src) = some n ∧ n < 2 ^ bits)) ∧
    (∀ (bits : Nat) (src : RawVal) (n : Nat),
      scanField (.kuint bits) src = .ok (.setUint n) →
        n < 2 ^ bits ∧ decimalValue (toStringGo src) = some n) ∧
    (∀ (bits : Nat) (src : RawVal) (n : Int),
      scanField (.kint bits) src = .ok (.setInt n) →
        -(2 ^ (bits - 1) : Int) ≤ n ∧ n < 2 ^ (bits - 1)) := by
  refine ⟨⟨.parseFailure "300", rfl⟩, rfl, ?_, ?_, ?_⟩
  · intro bits src
    constructor
    · rintro ⟨n, hn⟩
      have hsrc : src ≠ .rnull := by
        rintro rfl
        simp [scanField] at hn
      rw [scanField_kuint bits src hsrc, parseUint_eq] at hn
      refine ⟨hsrc, ?_⟩
      cases hd : decimalValue (toStringGo src) with
      | none => rw [hd] at hn; simp at hn
      | some m =>
        rw [hd] at hn
        by_cases hm : m < 2 ^ bits
        · exact ⟨m, rfl, hm⟩
        · simp [hm] at hn
    · rintro ⟨hsrc, n, hd, hn⟩
      refine ⟨n, ?_⟩
      rw [scanField_kuint bits src hsrc, parseUint_eq, hd]
      simp [hn]
  · intro bits src n h
    have hsrc : src ≠ .rnull := by
      rintro rfl
      simp [scanField] at h
    rw [scanField_kuint bits src hsrc, parseUint_eq] at h
    cases hd : decimalValue (toStringGo src) with
    | none => rw [hd] at h; simp at h
    | some m =>
      rw [hd] at h
      by_cases hm : m < 2 ^ bits
      · simp [hm] at h
        exact ⟨h ▸ hm, by rw [h]⟩
      · simp [hm] at h
  · intro bits src n h
    have hsrc : src ≠ .rnull := by
      rintro rfl
      simp [scanField] at h
    have hs : scanField (.kint bits) src =
        match parseInt (toStringGo src) bits with
        | some n => .ok (.setInt n)
        | none => .error (.parseFailure (toStringGo src)) := by
      cases src
      · exact absurd rfl hsrc
      all_goals rfl
    rw [hs] at h
    cases hp : parseInt (toStringGo src) bits with
    | none => rw [hp] at h; simp at h
    | some m =>
      rw [hp] at h
      simp only [Except.ok.injEq, ScanOut.setInt.injEq] at h
      subst h
      exact parseInt_range _ _ _ hp

/-- Witness for C5: the concrete instantiations of the bounded-scan
implications at the texts `12` (unsigned) and `100` (signed). -/
theorem uint_scan_bounded_witness :
    (12 < 2 ^ 8 ∧ decimalValue (toStringGo (.rstr "12")) = some 12) ∧
    (-(2 ^ (8 - 1) : Int) ≤ 100 ∧ (100 : Int) < 2 ^ (8 - 1)) :=
  ⟨uint_scan_bounded.2.2.2.1 8 (.rstr "12") 12 rfl,
   uint_scan_bounded.2.2.2.2 8 (.rstr "100") 100 rfl⟩

/-!  Claim C6.  -/

/-- C6 is false as stated: the int64 raw value 5 is not a boolean, does
not equal one, and its text `5` is not parseable as a boolean, yet the
boolean coercion stores `false` and returns no error. -/
theorem bool_int_nonone_no_error :
    scanField .kbool (.rint 5) = .ok (.setBool false) ∧
    (∀ b, (RawVal.rint 5) ≠ .rbool b) ∧
    (5 : Int) ≠ 1 ∧
    parseBool (toStringGo (.rint 5)) = none := by
  refine ⟨rfl, ?_, by decide, rfl⟩
  intro b h
  exact RawVal.noConfusion h

/-- C6 (amended): the boolean coercion stores a boolean raw value as-is,
stores `value == 1` for any int64 raw value (so integers other than one
coerce to `false` without error), and otherwise parses the value's text
as a boolean; it errors exactly when the value is neither boolean nor
int64, is not null (null is skipped), and its text is not parseable as a
boolean. -/
theorem bool_coercion_amended :
    (∀ b, scanField .kbool (.rbool b) = .ok (.setBool b)) ∧
    (∀ n : Int, scanField .kbool (.rint n) = .ok (.setBool (n == 1))) ∧
    (∀ src, (∃ e, scanField .kbool src = .error e) ↔
      (src ≠ .rnull ∧ (∀ b, src ≠ .rbool b) ∧ (∀ n, src ≠ .rint n) ∧
        parseBool (toStringGo src) = none)) := by
  refine ⟨fun b => rfl, fun n => rfl, ?_⟩
  intro src
  cases src with
  | rnull => simp [scanField]
  | rbool b => simp [scanField]
  | rint n => simp [scanField]
  | rstr s =>
    cases hp : parseBool s with
    | none => simp [scanField, toStringGo, hp]
    | some b => simp [scanField, toStringGo, hp]
  | rbytes s =>
    cases hp : parseBool s with
    | none => simp [scanField, toStringGo, hp]
    | some b => simp [scanField, toStringGo, hp]

/-!  Row scanner: field-table construction (`Scanner.getFields`).  -/

mutual

/-- The value held by a struct field: a scalar slot (identified by a
number) or a pointer to a nested record, possibly nil. -/
inductive FVal where
  | prim (id : Nat)
  | ptr (r : Option SRecord)

/-- A struct field: its Go name, its `db` tag (if any), and its value. -/
inductive SField where
  | mk (name : String) (tag : Option String) (val : FVal)

/-- A struct (record) shape with its type name and ordered fields. -/
inductive SRecord where
  | mk (name : String) (fields : List SField)

end

/-- An entry of the field table (`structField`): the resolved field name
used for case-insensitive matching, and the value slot it writes to. -/
structure SEntry where
  fname : String
  val : FVal

/-- Modelled from the spec: the `foldFunc` helper of the scanner is not
part of the provided sources; per the source comment and the spec it is
a case-insensitive comparison between a column name and a field name
(ASCII case folding). -/
def asciiLower (c : Char) : Char :=
  if 65 ≤ c.toNat ∧ c.toNat ≤ 90 then Char.ofNat (c.toNat + 32) else c

def foldEq (a b : String) : Bool :=
  a.data.map asciiLower == b.data.map asciiLower

/-- `structFields.put`: append the entry under the given key only when
the key is not already present. -/
def sfPut (fs : List (String × SEntry)) (key : String) (e : SEntry) :
    List (String × SEntry) :=
  if fs.any (fun p => p.1 == key) then fs else fs ++ [(key, e)]

/-- `structFields.get`: exact key lookup first, then the first entry
whose field name case-insensitively folds to the requested name. -/
def sfGet (fs : List (String × SEntry)) (name : String) : Option SEntry :=
  match fs.find? (fun p => p.1 == name) with
  | some p => some p.2
  | none => (fs.find? (fun p => foldEq p.2.fname name)).map (fun p => p.2)

/-- Split a character list at every occurrence of the separator
(`strings.Split` semantics: n separators give n+1 parts, empties
kept). -/
def splitSepCs (sep : Char) : List Char → List (List Char)
  | [] => [[]]
  | c :: cs =>
    if c = sep then [] :: splitSepCs sep cs
    else
      match splitSepCs sep cs with
      | [] => [[c]]
      | p :: ps => (c :: p) :: ps

/-- `strings.Split(v, ",")`. -/
def splitComma (s : String) : List String :=
  (splitSepCs ',' s.data).map (fun l => ⟨l⟩)

/-- Split a character list around the first occurrence of the given
character (`strings.SplitN(s, sep, 2)` semantics when present). -/
def breakAt (c : Char) : List Char → List Char × List Char
  | [] => ([], [])
  | x :: xs =>
    if x = c then ([], xs)
    else
      ((breakAt c xs).1.cons x, (breakAt c xs).2)

/-- The part of a `col:target` segment before the first colon. -/
def colOf (seg : String) : String := ⟨(breakAt ':' seg.data).1⟩

/-- The part of a `col:target` segment after the first colon. -/
def targetOf (seg : String) : String := ⟨(breakAt ':' seg.data).2⟩

/-- The part of a dotted column name before the first dot. -/
def pfxOf (s : String) : String := ⟨(breakAt '.' s.data).1⟩

/-- The part of a dotted column name after the first dot. -/
def sfxOf (s : String) : String := ⟨(breakAt '.' s.data).2⟩

/-- The field-definition errors of `getFields` (`StructFieldError`): an
empty mapping target, an empty mapping prefix, a nested error wrapped
with the outer struct/field context, and the reflect panic that a
`col:target` directive on a non-nilable field would cause in Go. -/
inductive FieldErr where
  | missingTarget (tag rname fname : String)
  | missingPfx (tag rname fname : String)
  | nonNilable (rname fname : String)
  | nested (rname fname : String) (e : FieldErr)

/-- `nested.get(target)` then `fields.put(col, fld)`; on a miss, the
`*:*` form hoists every nested entry unprefixed, and anything else is
silently ignored. -/
def lookupPut (col target : String)
    (nested acc : List (String × SEntry)) : List (String × SEntry) :=
  match sfGet nested target with
  | some e => sfPut acc col e
  | none =>
    if col = "*" ∧ target = "*" then
      nested.foldl (fun a p => sfPut a p.2.fname p.2) acc
    else acc

/-- The `prefix.*` hoist: every nested entry is renamed with the prefix
and put under its new name. -/
def putPrefixed (acc : List (String × SEntry)) (pfx : String)
    (nested : List (String × SEntry)) : List (String × SEntry) :=
  nested.foldl
    (fun a p => sfPut a (pfx ++ "." ++ p.2.fname)
      ⟨pfx ++ "." ++ p.2.fname, p.2.val⟩) acc

mutual

/-- `Scanner.getFields` on a (dereferenced, non-nil) record shape: walk
the fields in order, accumulating the field table. -/
def getFields : SRecord → Except FieldErr (List (String × SEntry))
  | .mk rname flds => getFieldsList rname flds []
termination_by r => (sizeOf r, 0)

def getFieldsList (rname : String) :
    List SField → List (String × SEntry) →
      Except FieldErr (List (String × SEntry))
  | [], acc => .ok acc
  | f :: rest, acc =>
    match processField rname f acc with
    | .ok acc2 => getFieldsList rname rest acc2
    | .error e => .error e
termination_by l _ => (sizeOf l, 2)

/-- One field of the loop: no (or empty) tag puts the field under its own
name; the tag `-` excludes it; otherwise each comma-separated segment is
processed in order. -/
def processField (rname : String) (f : SField)
    (acc : List (String × SEntry)) :
    Except FieldErr (List (String × SEntry)) :=
  match f with
  | .mk fname tag fval =>
    match tag with
    | none => .ok (sfPut acc fname ⟨fname, fval⟩)
    | some v =>
      if v = "" then .ok (sfPut acc fname ⟨fname, fval⟩)
      else if v = "-" then .ok acc
      else processSegs rname fname fval (splitComma v) acc
termination_by (sizeOf f, 1)

def processSegs (rname fname : String) (fval : FVal) :
    List String → List (String × SEntry) →
      Except FieldErr (List (String × SEntry))
  | [], acc => .ok acc
  | seg :: rest, acc =>
    match processSeg rname fname fval seg acc with
    | .ok acc2 => processSegs rname fname fval rest acc2
    | .error e => .error e
termination_by segs _ => (sizeOf fval, 1 + sizeOf segs)

/-- One directive segment: a segment with a colon is a nested mapping —
an empty target errors, a nil nested pointer skips the segment, and
otherwise the nested record's own table is built and consulted (with the
`prefix.*` hoist when the column is dotted); a segment without a colon is
a plain column alias. -/
def processSeg (rname fname : String) (fval : FVal) (seg : String)
    (acc : List (String × SEntry)) :
    Except FieldErr (List (String × SEntry)) :=
  if seg.data.contains ':' then
    if targetOf seg = "" then
      .error (.missingTarget (colOf seg) rname fname)
    else
      match fval with
      | .prim _ => .error (.nonNilable rname fname)
      | .ptr none => .ok acc
      | .ptr (some nrec) =>
        match getFields nrec with
        | .error e => .error (.nested rname fname e)
        | .ok nested =>
          if (colOf seg).data.contains '.' then
            if pfxOf (colOf seg) = "" then
              .error (.missingPfx (colOf seg) rname fname)
            else if sfxOf (colOf seg) = "*" then
              .ok (putPrefixed acc (pfxOf (colOf seg)) nested)
            else .ok (lookupPut (colOf seg) (targetOf seg) nested acc)
          else .ok (lookupPut (colOf seg) (targetOf seg) nested acc)
  else .ok (sfPut acc seg ⟨seg, fval⟩)
termination_by (sizeOf fval, 0)

end

/-!  Claim C7.  -/

theorem processSeg_nil_ptr (rname fname seg : String)
    (acc : List (String × SEntry))
    (hc : seg.data.contains ':' = true) (ht : targetOf seg ≠ "") :
    processSeg rname fname (.ptr none) seg acc = .ok acc := by
  unfold processSeg
  rw [hc, if_pos rfl, if_neg ht]

theorem processSegs_nil_ptr (rname fname : String) (segs : List String)
    (hsegs : ∀ seg ∈ segs,
      seg.data.contains ':' = true ∧ targetOf seg ≠ "") :
    ∀ acc, processSegs rname fname (.ptr none) segs acc = .ok acc := by
  induction segs with
  | nil => intro acc; simp [processSegs]
  | cons seg rest ih =>
    intro acc
    have h1 := hsegs seg (by simp)
    rw [processSegs,
        processSeg_nil_ptr rname fname seg acc h1.1 h1.2]
    exact ih (fun s hs => hsegs s (by simp [hs])) acc

theorem processField_nil_ptr (rname fname tag : String)
    (hsegs : ∀ seg ∈ splitComma tag,
      seg.data.contains ':' = true ∧ targetOf seg ≠ "") :
    ∀ acc, processField rname (.mk fname (some tag) (.ptr none)) acc =
      .ok acc := by
  intro acc
  have htag0 : tag ≠ "" := by
    intro h; subst h
    have hm := hsegs "" (by decide)
    exact absurd hm.1 (by decide)
  have htag1 : tag ≠ "-" := by
    intro h; subst h
    have hm := hsegs "-" (by decide)
    exact absurd hm.1 (by decide)
  simp only [processField]
  rw [if_neg htag0, if_neg htag1]
  exact processSegs_nil_ptr rname fname (splitComma tag) hsegs acc

theorem getFieldsList_skip (rname fname tag : String) (post : List SField)
    (hsegs : ∀ seg ∈ splitComma tag,
      seg.data.contains ':' = true ∧ targetOf seg ≠ "")
    (pre : List SField) :
    ∀ acc, getFieldsList rname
        (pre ++ (SField.mk fname (some tag) (.ptr none)) :: post) acc =
      getFieldsList rname (pre ++ post) acc := by
  induction pre with
  | nil =>
    intro acc
    simp only [List.nil_append]
    rw [getFieldsList, processField_nil_ptr rname fname tag hsegs acc]
  | cons p pre ih =>
    intro acc
    simp only [List.cons_append]
    rw [getFieldsList, getFieldsList]
    cases hp : processField rname p acc with
    | ok acc2 => simp only [hp]; exact ih acc2
    | error e => simp only [hp]

/-- C7: a field whose tag consists only of nested-mapping directives
(`col:target`, `*:*`, `prefix.*:*` — colon segments with a nonempty
target) and whose nested pointer is currently nil is skipped entirely by
field-table construction: the resulting table and error behaviour are
those of the same record without that field, so `Scan` raises no error on
its account and never allocates the nested record. -/
theorem nil_nested_directive_skipped (rname fname tag : String)
    (pre post : List SField)
    (hsegs : ∀ seg ∈ splitComma tag,
      seg.data.contains ':' = true ∧ targetOf seg ≠ "") :
    getFields
        (.mk rname (pre ++ (SField.mk fname (some tag) (.ptr none)) :: post)) =
      getFields (.mk rname (pre ++ post)) := by
  rw [getFields, getFields]
  exact getFieldsList_skip rname fname tag post hsegs pre []

/-- Witness for C7: the `Post`-shaped record of the example application,
whose `User` field carries `user_id:id,users.*:*` and is nil. -/
theorem nil_nested_directive_skipped_witness :
    getFields (.mk "Post"
        ([SField.mk "ID" none (.prim 0)] ++
          (SField.mk "User" (some "user_id:id,users.*:*") (.ptr none)) ::
          [SField.mk "Title" none (.prim 1)])) =
      getFields (.mk "Post"
        ([SField.mk "ID" none (.prim 0)] ++
          [SField.mk "Title" none (.prim 1)])) :=
  nil_nested_directive_skipped "Post" "User" "user_id:id,users.*:*"
    [SField.mk "ID" none (.prim 0)] [SField.mk "Title" none (.prim 1)]
    (by decide)

/-!  Claim C9.  -/

/-- The item text `query.List` produces for one input value. -/
def itemText : GoVal → String
  | .vexpr (.listE its w as) => Expr.build (.listE its w as)
  | .vexpr (.lit u) => Expr.build (.lit u)
  | .vexpr (.ident s) => Expr.build (.ident s)
  | _ => "?"

/-- The argument values `query.List` appends for one input value. -/
def itemArgs : GoVal → List GoVal
  | .vexpr (.listE its w as) => [.vexpr (.listE its w as)]
  | .vexpr (.lit _) => []
  | .vexpr (.ident _) => []
  | v => [v]

theorem listStep_eq (items : List String) (args : List GoVal) (v : GoVal) :
    listStep (items, args) v = (items ++ [itemText v], args ++ itemArgs v) := by
  cases v with
  | vexpr e => cases e <;> simp [listStep, itemText, itemArgs]
  | _ => rfl

theorem listFold (vals : List GoVal) :
    ∀ (items : List String) (args : List GoVal),
      vals.foldl listStep (items, args) =
        (items ++ vals.map itemText, args ++ (vals.map itemArgs).flatten) := by
  induction vals with
  | nil => intro items args; simp
  | cons v vals ih =>
    intro items args
    rw [List.foldl_cons, listStep_eq, ih]
    simp

/-- The nested list used to refute C9 as stated. -/
def c9nested : Expr := ListE [.vint 1, .vint 2]

/-- C9 is false as stated: a nested list item is neither a literal nor an
identifier expression, yet `List` does not turn it into one placeholder —
it inlines the nested list's built text (here two placeholders) while
still appending the nested list value to the argument sequence. -/
theorem nested_list_not_single_placeholder :
    Expr.build (ListE [.vexpr c9nested]) = "((?, ?))" ∧
    Expr.build (ListE [.vexpr c9nested]) ≠ "(?)" ∧
    Expr.argsFn (ListE [.vexpr c9nested]) = [.vexpr c9nested] := by
  refine ⟨?_, ?_, ?_⟩
  · simp [ListE, c9nested, listStep, Expr.build, joinComma]
  · simp [ListE, c9nested, listStep, Expr.build, joinComma]
  · simp [ListE, c9nested, listStep, Expr.argsFn]

/-- C9 (amended): `List(1,2,3)` builds to `(?, ?, ?)` before renumbering
with arguments `[1,2,3]` in that order; in general `List` inlines literal
and identifier expression items verbatim with no argument, inlines a
nested list item as its built text while appending the whole nested list
value to the argument sequence, turns every other item into one `?`
placeholder whose value is appended, preserves input order throughout,
and wraps the output in parentheses. -/
theorem list_expr_spec :
    (Expr.build (ListE [.vint 1, .vint 2, .vint 3]) = "(?, ?, ?)" ∧
      Expr.argsFn (ListE [.vint 1, .vint 2, .vint 3]) =
        [.vint 1, .vint 2, .vint 3]) ∧
    (∀ vals : List GoVal,
      Expr.build (ListE vals) =
          "(" ++ joinComma (vals.map itemText) ++ ")" ∧
        Expr.argsFn (ListE vals) = (vals.map itemArgs).flatten) := by
  refine ⟨⟨?_, ?_⟩, ?_⟩
  · simp [ListE, listStep, Expr.build, joinComma]
  · simp [ListE, listStep, Expr.argsFn]
  · intro vals
    constructor
    · show Expr.build (.listE (vals.foldl listStep ([], [])).1 true
        (vals.foldl listStep ([], [])).2) = _
      rw [listFold]
      simp [Expr.build]
    · show Expr.argsFn (.listE (vals.foldl listStep ([], [])).1 true
        (vals.foldl listStep ([], [])).2) = _
      rw [listFold]
      simp [Expr.argsFn]

end DB
